import Mathlib

/-!
Verification of the journaled-log, block-cache, pipe, file-system and
process subsystems of the rust-xv6 kernel (directory `kernel/src` of the
repository).  Each subsystem is shallowly embedded: the Rust functions are
translated into executable Lean functions over explicit state, machine
integers become `Nat` with explicit `% 2^w` where wrap-around matters, and
Rust `Result`/panics become `Except`/`Option`.

Conventions used throughout:
* a Rust `panic!`/`assert!` is modelled by returning `none` (or a dedicated
  error constructor) from the embedded function;
* mutable state is passed and returned explicitly;
* source references are given as comments of the form `kernel/src/file.rs`.
-/

set_option linter.unusedVariables false

set_option linter.dupNamespace false

set_option maxRecDepth 8192

deriving instance DecidableEq for Except

namespace XvSix

/-! Constants from kernel/src/param.rs. -/

def MAXOPBLOCKS : Nat := 64

def LOGSIZE : Nat := MAXOPBLOCKS * 8 - 1

def NBUF : Nat := MAXOPBLOCKS * 8

def NPROC : Nat := 256

end XvSix

namespace XvSix

namespace Fslog

/-!
Model of the redo log of kernel/src/fslog.rs.

A disk block is viewed as its sequence of 64-bit little-endian words, the
view used by the header code (`Log::read` / `Log::write` reinterpret the
block as `[u64]`); block copies in `Log::commit` copy the whole block, so
no byte-level structure is needed.  The disk is a map from block number to
block.
-/

/-- One disk block, as a map from (64-bit) word index to word value. -/
def Block := Nat → Nat

/-- The disk: a map from block number to block contents. -/
def Disk := Nat → Block

/-- Overwrite one whole block of the disk. -/
def diskWrite (d : Disk) (blockno : Nat) (b : Block) : Disk :=
  fun x => if x = blockno then b else d x

/-- Log.insert (fslog.rs:71-76): append a block number to the in-memory
list unless it is already present. -/
def Log.insert (blocks : List Nat) (blockno : Nat) : List Nat :=
  if blockno ∈ blocks then blocks else blocks ++ [blockno]

/-- Count word of the on-disk header block (word 0 of block `start`). -/
def headerCount (start : Nat) (d : Disk) : Nat := d start 0

/-- The block numbers stored in the on-disk header: words 1..count. -/
def headerBlocks (start : Nat) (d : Disk) : List Nat :=
  (List.range (headerCount start d)).map (fun i => d start (i + 1))

/-- Log.read (fslog.rs:94-111): parse the on-disk header into the in-memory
list, inserting each stored block number in order.  Returns `none` on the
`corrupt log too large` panic, i.e. when `count ≥ LOGSIZE` or
`count ≥ size - 1`. -/
def Log.read (start size : Nat) (d : Disk) : Option (List Nat) :=
  let n := headerCount start d
  if n ≥ LOGSIZE ∨ n ≥ size - 1 then none
  else some ((headerBlocks start d).foldl Log.insert [])

/-- Helper for Log.commit: copy log data block `start + tail + 1` over
destination block `b`, for each listed `b` in order, reading the current
disk at every step exactly as the buffered copies do. -/
def Log.commitGo (start tail : Nat) (blocks : List Nat) (d : Disk) : Disk :=
  match blocks with
  | [] => d
  | b :: rest => Log.commitGo start (tail + 1) rest (diskWrite d b (d (start + tail + 1)))

/-- Log.commit (fslog.rs:143-157): install every logged block from the log
data area to its home location. -/
def Log.commit (start : Nat) (blocks : List Nat) (d : Disk) : Disk :=
  Log.commitGo start 0 blocks d

/-- Log.write (fslog.rs:113-125): write the header block. Word 0 becomes
the list length, words 1..len the listed block numbers; the remaining
words of the header block keep their previous contents (the code only
copies `len + 1` words). -/
def Log.writeHeader (start : Nat) (blocks : List Nat) (d : Disk) : Disk :=
  diskWrite d start (fun w =>
    if w = 0 then blocks.length
    else if 1 ≤ w ∧ w ≤ blocks.length then blocks.getD (w - 1) 0
    else d start w)

/-- Boot recovery (the local fn recover inside fslog.rs init, lines
246-258): read the header, install all listed blocks, clear the in-memory
list, and write a zero-count header.  Returns `none` when `Log.read`
panics. -/
def recover (start size : Nat) (d : Disk) : Option Disk :=
  match Log.read start size d with
  | none => none
  | some blocks => some (Log.writeHeader start [] (Log.commit start blocks d))

/-- Witness for c1 at a concrete journal: header count 1 at block 2,
logged block number 9, log data at block 3. -/
def c1Disk : Fslog.Disk :=
  fun b w => if b = 2 ∧ w = 0 then 1 else if b = 2 ∧ w = 1 then 9 else if b = 3 then 77 else 0

/-- The disk produced by one recovery run over `c1Disk`. -/
def c1DiskOnce : Fslog.Disk := (recover 2 4 c1Disk).get rfl

/-!
Model of op::begin's admission test (fslog.rs:185-202).  The loop body,
holding the log lock, either admits the caller (incrementing
`outstanding`) or sleeps; one iteration is embedded as a function of the
observed state.
-/

/-- Outcome of one iteration of the wait loop in op::begin. -/
inductive BeginOutcome
  | proceed (outstanding : Nat)
  | blocked
  deriving DecidableEq

/-- One iteration of op::begin's loop (fslog.rs:187-199): sleep while
committing, sleep while `len + (outstanding + 1) * MAXOPBLOCKS > LOGSIZE`,
otherwise increment the outstanding count and return. -/
def beginStep (committing : Bool) (outstanding len : Nat) : BeginOutcome :=
  if committing then BeginOutcome.blocked
  else if len + (outstanding + 1) * MAXOPBLOCKS > LOGSIZE then BeginOutcome.blocked
  else BeginOutcome.proceed (outstanding + 1)

end Fslog

end XvSix

namespace XvSix

namespace Pipe

/-!
Model of kernel/src/pipe.rs.  A pipe is a one-page ring buffer with two
running counters and two open flags.  `usize` counters wrap modulo 2^64
(`wrapping_add`), which the model makes explicit.  Wakeup calls
(`proc::wakeup`) are recorded as a list of woken channels so that the
wakeup discipline itself can be stated.
-/

/-- Ring capacity: the data page is one `arch::PAGE_SIZE` page. -/
def PIPESIZE : Nat := 4096

/-- Modulus of the `usize` counters. -/
def USIZE : Nat := 2 ^ 64

/-- The two wakeup channels of a pipe (`read_chan` / `write_chan`). -/
inductive Chan
  | readChan
  | writeChan
  deriving DecidableEq

/-- Pipe state (pipe.rs:28-34). -/
structure Pipe where
  nread : Nat
  nwrite : Nat
  data : Nat → Nat
  read_open : Bool
  write_open : Bool

/-- Pipe::is_empty (pipe.rs:71-73). -/
def Pipe.is_empty (p : Pipe) : Bool := p.nread == p.nwrite

/-- Pipe::readable (pipe.rs:75-77). -/
def Pipe.readable (p : Pipe) : Bool := !p.is_empty || !p.write_open

/-- Pipe::read_byte (pipe.rs:79-85): read the byte at `nread % PIPESIZE`
and advance `nread` (wrapping). The caller guarantees non-emptiness. -/
def Pipe.read_byte (p : Pipe) : Nat × Pipe :=
  (p.data (p.nread % PIPESIZE), { p with nread := (p.nread + 1) % USIZE })

/-- Pipe::is_full (pipe.rs:87-90): `nread + data.len() == nwrite` on
wrapping `usize` arithmetic. -/
def Pipe.is_full (p : Pipe) : Bool := (p.nread + PIPESIZE) % USIZE == p.nwrite

/-- Pipe::broken (pipe.rs:92-94). -/
def Pipe.broken (p : Pipe) : Bool := !p.read_open

/-- Pipe::write_byte (pipe.rs:96-101): store at `nwrite % PIPESIZE` and
advance `nwrite` (wrapping). The caller guarantees non-fullness. -/
def Pipe.write_byte (p : Pipe) (b : Nat) : Pipe :=
  { p with
    data := fun i => if i = p.nwrite % PIPESIZE then b else p.data i,
    nwrite := (p.nwrite + 1) % USIZE }

/-- Outcome of one PipeReader::read call. `blocked` models the sleep on
`read_chan` taken while the pipe is unreadable. -/
inductive ReadOutcome
  | ok (bytes : List Nat) (p : Pipe) (wakeups : List Chan)
  | blocked

/-- The copy loop of PipeReader::read (pipe.rs:129-133): read while the
destination has room and the pipe is non-empty. -/
def readBytes (p : Pipe) (k : Nat) : List Nat × Pipe :=
  match k with
  | 0 => ([], p)
  | k + 1 =>
      if p.is_empty then ([], p)
      else
        let (b, p1) := p.read_byte
        let (bs, p2) := readBytes p1 k
        (b :: bs, p2)

/-- PipeReader::read (pipe.rs:121-137): sleep while not readable,
otherwise drain up to `len` bytes and wake the writer channel once. -/
def PipeReader.read (p : Pipe) (len : Nat) : ReadOutcome :=
  if !p.readable then ReadOutcome.blocked
  else
    let (bs, p1) := readBytes p len
    ReadOutcome.ok bs p1 [Chan.writeChan]

/-- Outcome of one PipeWriter::write call.  `brokenPipe` models the
broken-pipe error; `blocked` models the sleep on `write_chan` taken when
the pipe is full with the read end still open, after waking the reader. -/
inductive WriteOutcome
  | ok (p : Pipe) (wakeups : List Chan)
  | brokenPipe (p : Pipe) (wakeups : List Chan)
  | blocked (p : Pipe) (wakeups : List Chan)

/-- The byte loop of PipeWriter::write (pipe.rs:159-168), accumulating the
wakeups issued so far: for each byte, if the pipe is full then either fail
with broken pipe or wake the reader and sleep; otherwise store the byte.
After the last byte the reader channel is woken once. -/
def writeGo (p : Pipe) (bytes : List Nat) (acc : List Chan) : WriteOutcome :=
  match bytes with
  | [] => WriteOutcome.ok p (acc ++ [Chan.readChan])
  | b :: rest =>
      if p.is_full then
        if p.broken then WriteOutcome.brokenPipe p acc
        else WriteOutcome.blocked p (acc ++ [Chan.readChan])
      else writeGo (p.write_byte b) rest acc

/-- PipeWriter::write (pipe.rs:157-172). -/
def PipeWriter.write (p : Pipe) (bytes : List Nat) : WriteOutcome :=
  writeGo p bytes []

/-- PipeWriter::close (pipe.rs:146-155): clear `write_open` and wake the
reader channel (deallocation of the slab entry is not modelled). -/
def PipeWriter.close (p : Pipe) : Pipe × List Chan :=
  ({ p with write_open := false }, [Chan.readChan])

/-- Number of buffered bytes (meaningful for non-wrapped counters). -/
def avail (p : Pipe) : Nat := p.nwrite - p.nread

/-- The buffered bytes in FIFO order. -/
def contents (p : Pipe) : List Nat :=
  (List.range (avail p)).map (fun i => p.data ((p.nread + i) % PIPESIZE))

/-- Bytes returned by a read outcome. -/
def ReadOutcome.bytesOf : ReadOutcome → Option (List Nat)
  | ReadOutcome.ok bs _ _ => some bs
  | ReadOutcome.blocked => none

/-- Pipe state left by a read outcome. -/
def ReadOutcome.pipeOf : ReadOutcome → Option Pipe
  | ReadOutcome.ok _ p _ => some p
  | ReadOutcome.blocked => none

/-- Wakeups issued by a read outcome. -/
def ReadOutcome.wakeupsOf : ReadOutcome → List Chan
  | ReadOutcome.ok _ _ ws => ws
  | ReadOutcome.blocked => []

/-- Did the write call return Ok? -/
def WriteOutcome.isOk : WriteOutcome → Bool
  | WriteOutcome.ok _ _ => true
  | _ => false

/-- Pipe state left by a write outcome. -/
def WriteOutcome.pipeOf : WriteOutcome → Pipe
  | WriteOutcome.ok p _ => p
  | WriteOutcome.brokenPipe p _ => p
  | WriteOutcome.blocked p _ => p

/-- Wakeups issued by a write outcome. -/
def WriteOutcome.wakeupsOf : WriteOutcome → List Chan
  | WriteOutcome.ok _ ws => ws
  | WriteOutcome.brokenPipe _ ws => ws
  | WriteOutcome.blocked _ ws => ws

/-- A freshly reset pipe (Pipe::reset, pipe.rs:47-53): both ends open,
counters zero, zeroed page. -/
def pFresh : Pipe := ⟨0, 0, fun _ => 0, true, true⟩

/-- Scenario S2 step 1: the writer writes bytes AB (65, 66). -/
def wAB : WriteOutcome := PipeWriter.write pFresh [65, 66]

/-- Pipe state after the AB write. -/
def pAB : Pipe := wAB.pipeOf

/-- Pipe state after the writer also closed its end. -/
def pABClosed : Pipe := (PipeWriter.close pAB).1

/-- Scenario S2 step 2: the reader asks for 4 bytes. -/
def rFirst : ReadOutcome := PipeReader.read pABClosed 4

/-- Pipe state after the first read. -/
def pAfterRead : Pipe := (rFirst.pipeOf).getD pFresh

/-- Scenario S2 step 3: the reader asks again. -/
def rSecond : ReadOutcome := PipeReader.read pAfterRead 4

/-- A full pipe whose read end is closed. -/
def pFullBroken : Pipe := ⟨0, PIPESIZE, fun _ => 0, false, true⟩

/-- A full pipe with both ends open. -/
def pFullOpen : Pipe := ⟨0, PIPESIZE, fun _ => 0, true, true⟩

/-- A pipe buffering the two bytes 65, 66, both ends open. -/
def pTwo : Pipe := ⟨0, 2, fun i => if i = 0 then 65 else if i = 1 then 66 else 0, true, true⟩

end Pipe

end XvSix

namespace XvSix

namespace Bio

/-!
Model of the block cache of kernel/src/bio.rs.

The cache is a fixed pool of `NBUF` buffers threaded on a doubly-linked
LRU list of slot indices (`head` = most recently released).  The model
keeps the buffer array as a map from slot index to buffer and the LRU
list as the list of slot indices from head to tail; the linked-list
surgery of `relse` becomes move-to-front, and the two scans of `bget`
become `find?` over the list and over its reverse.

The field `assigned` is a ghost flag recording that `bget` has assigned
the buffer its (dev, blockno) identity; the initial identity (0, 0) that
all buffers share before first use is not an assignment.
-/

/-- One cache buffer: identity, reference count and the VALID/DIRTY flag
bits (bio.rs Buf, lines 64-72), plus the `assigned` ghost flag. -/
structure Buf where
  dev : Nat
  blockno : Nat
  ref_cnt : Nat
  valid : Bool
  dirty : Bool
  assigned : Bool

/-- The cache: buffer pool plus the LRU order (head first). -/
structure BCache where
  bufs : Nat → Buf
  order : List Nat

/-- A buffer as built by Buf::new (bio.rs:74-85). -/
def initBuf : Buf := ⟨0, 0, 0, false, false, false⟩

/-- The cache as built by bio::init (bio.rs:208-227): all buffers fresh,
linked 0, 1, ..., NBUF-1 from head to tail. -/
def bcacheInit : BCache := ⟨fun _ => initBuf, List.range NBUF⟩

/-- Replace the buffer in one slot. -/
def updateBuf (c : BCache) (i : Nat) (f : Buf → Buf) : BCache :=
  { c with bufs := fun j => if j = i then f (c.bufs j) else c.bufs j }

/-- bget (bio.rs:229-260): scan MRU to LRU for the identity and bump its
reference count on a hit; otherwise scan LRU to MRU for a victim with
`ref_cnt == 0` and DIRTY clear, reassign its identity, bump the count and
clear the flags; otherwise fail (`bget: no buffers`). -/
def bget (c : BCache) (dev blockno : Nat) : BCache × Option Nat :=
  match c.order.find? (fun i => ((c.bufs i).dev == dev) && ((c.bufs i).blockno == blockno)) with
  | some i => (updateBuf c i (fun b => { b with ref_cnt := b.ref_cnt + 1 }), some i)
  | none =>
      match c.order.reverse.find? (fun i => ((c.bufs i).ref_cnt == 0) && (!(c.bufs i).dirty)) with
      | some v =>
          (updateBuf c v (fun b =>
            { b with dev := dev, blockno := blockno, ref_cnt := b.ref_cnt + 1,
                     valid := false, dirty := false, assigned := true }), some v)
      | none => (c, none)

/-- Buf::relse (bio.rs:175-203): decrement the reference count and, when
it reaches zero, move the buffer to the MRU position (the head).  The
count is a Nat here, so a release without a matching bget (a caller
error; a u32 underflow in the source) saturates at zero. -/
def relse (c : BCache) (i : Nat) : BCache :=
  let c1 := updateBuf c i (fun b => { b with ref_cnt := b.ref_cnt - 1 })
  if (c1.bufs i).ref_cnt = 0 then { c1 with order := i :: c1.order.erase i } else c1

/-- fslog::write's effect on a buffer (fslog.rs:260-273): set DIRTY. -/
def logWrite (c : BCache) (i : Nat) : BCache :=
  updateBuf c i (fun b => { b with dirty := true })

/-- Disk-driver completion on a buffer (sd interrupt contract): set VALID,
clear DIRTY. -/
def diskDone (c : BCache) (i : Nat) : BCache :=
  updateBuf c i (fun b => { b with valid := true, dirty := false })

/-- The cache operations observable against the pool. -/
inductive BOp
  | get (dev blockno : Nat)
  | rel (i : Nat)
  | logw (i : Nat)
  | ddone (i : Nat)

/-- One cache operation. -/
def bstep (c : BCache) (op : BOp) : BCache :=
  match op with
  | BOp.get d b => (bget c d b).1
  | BOp.rel i => relse c i
  | BOp.logw i => logWrite c i
  | BOp.ddone i => diskDone c i

/-- Run a sequence of cache operations from the freshly initialized
cache. -/
def brun (ops : List BOp) : BCache := ops.foldl bstep bcacheInit

/-- Cache invariant: every buffer holding an assigned identity is on the
LRU list, and no two distinct buffers hold the same assigned
(dev, blockno). -/
def BInv (c : BCache) : Prop :=
  (∀ i, (c.bufs i).assigned = true → i ∈ c.order) ∧
  (∀ i j, i ≠ j → (c.bufs i).assigned = true → (c.bufs j).assigned = true →
    ¬((c.bufs i).dev = (c.bufs j).dev ∧ (c.bufs i).blockno = (c.bufs j).blockno))

end Bio

end XvSix

namespace XvSix

namespace Fs

/-!
Model of the directory layer of kernel/src/fs.rs.

A directory entry is 32 bytes: an 8-byte inum and a 24-byte NUL-padded
name (`Dirent`, fs.rs:120-127).  A directory's content is the list of its
entries in file order; the victim inodes reachable from a directory are
modelled as a table from inum to inode record.
-/

/-- fs.rs DIRSIZ: length of the stored name field. -/
def DIRSIZ : Nat := 24

/-- Byte value of the path separator. -/
def SLASH : Nat := 47

/-- File types (syslib/src/stat.rs FileType). -/
inductive FileType
  | unused
  | dir
  | file
  | dev
  deriving DecidableEq

/-- A directory entry: inum plus the 24 stored name bytes. -/
structure Dirent where
  inum : Nat
  name : List Nat
  deriving DecidableEq

/-- Dirent::name (fs.rs:130-137): the stored bytes up to the first NUL. -/
def Dirent.shown (e : Dirent) : List Nat := e.name.takeWhile (fun b => b != 0)

/-- The all-zero entry written by dir_unlink. -/
def zeroDirent : Dirent := ⟨0, List.replicate DIRSIZ 0⟩

/-- The slice of an in-memory inode that the directory operations read:
type, link count, and (for directories) the entries. -/
structure Inode where
  typ : FileType
  nlink : Nat
  entries : List Dirent

/-- Scan of dir_lookup_offset (fs.rs:649-665), carrying the entry index:
skip zero-inum slots, compare the NUL-trimmed stored name. -/
def lookupGo (entries : List Dirent) (name : List Nat) (idx : Nat) : Option (Nat × Nat) :=
  match entries with
  | [] => none
  | e :: rest =>
      if e.inum != 0 && e.shown == name then some (e.inum, idx)
      else lookupGo rest name (idx + 1)

/-- dir_lookup_offset: the victim's inum and the index of its entry. -/
def dir_lookup_offset (entries : List Dirent) (name : List Nat) : Option (Nat × Nat) :=
  lookupGo entries name 0

/-- Inode::is_unlinkable (fs.rs:723-740): a non-directory, or a directory
whose entries from offset 2·DIRENT_SIZE on are all zero. -/
def is_unlinkable (ino : Inode) : Bool :=
  if ino.typ = FileType.dir then (ino.entries.drop 2).all (fun e => e.inum == 0)
  else true

/-- Errors and panics of the directory layer; constructors carry the
message of the corresponding Rust `Err`/`assert!`. -/
inductive FsErr
  | fileNotFound
  | notLinkable
  | fileExists
  | crashNlink
  deriving DecidableEq

/-- Inode::dir_unlink (fs.rs:701-721): look the name up; require victim
nlink positive (assert) and `is_unlinkable`; overwrite the entry with 32
zero bytes; decrement the parent's nlink when the victim is a directory;
decrement the victim's nlink. -/
def dir_unlink (dp : Inode) (itable : Nat → Inode) (name : List Nat) :
    Except FsErr (Inode × (Nat → Inode)) :=
  match dir_lookup_offset dp.entries name with
  | none => Except.error FsErr.fileNotFound
  | some (inum, off) =>
      let ip := itable inum
      if ip.nlink = 0 then Except.error FsErr.crashNlink
      else if !is_unlinkable ip then Except.error FsErr.notLinkable
      else
        Except.ok
          ({ dp with
              entries := dp.entries.set off zeroDirent,
              nlink := if ip.typ = FileType.dir then dp.nlink - 1 else dp.nlink },
            fun k => if k = inum then { itable k with nlink := (itable k).nlink - 1 } else itable k)

/-- The name bytes dir_link stores (fs.rs:693-696): the slice is zeroed,
then the first `min (DIRSIZ, len)` bytes of the name are copied in. -/
def storedBytes (name : List Nat) : List Nat :=
  name.take DIRSIZ ++ List.replicate (DIRSIZ - min DIRSIZ name.length) 0

/-- Index of the first zero-inum slot. -/
def firstZero (entries : List Dirent) (idx : Nat) : Option Nat :=
  match entries with
  | [] => none
  | e :: rest => if e.inum == 0 then some idx else firstZero rest (idx + 1)

/-- Inode::dir_link (fs.rs:672-699): fail if the (full, untruncated) name
already resolves; otherwise write an entry made of the truncated name into
the first zero-inum slot, or append one. -/
def dir_link (entries : List Dirent) (name : List Nat) (inum : Nat) :
    Except FsErr (List Dirent) :=
  if (dir_lookup_offset entries name).isSome then Except.error FsErr.fileExists
  else
    let newe : Dirent := ⟨inum, storedBytes name⟩
    match firstZero entries 0 with
    | some idx => Except.ok (entries.set idx newe)
    | none => Except.ok (entries ++ [newe])

/-- skip_elem (fs.rs:795-804): drop leading slashes; fail on an empty
remainder; the element is the run up to the next slash, truncated to
DIRSIZ bytes; the rest is what follows that run with its leading slashes
dropped. -/
def skip_elem (path : List Nat) : Option (List Nat × List Nat) :=
  let p1 := path.dropWhile (fun b => b == SLASH)
  if p1.isEmpty then none
  else
    let name := (p1.takeWhile (fun b => b != SLASH)).take DIRSIZ
    let rest := (p1.dropWhile (fun b => b != SLASH)).dropWhile (fun b => b == SLASH)
    some (name, rest)

/-- The stored name of "." -/
def dotName : List Nat := [46]

/-- The stored name of ".." -/
def dotdotName : List Nat := [46, 46]

/-- Well-formed directory shape maintained by create (fs.rs:895-925): a
directory's first two entries are "." and "..", and no later entry uses
either of those names. -/
abbrev WfDir (ino : Inode) : Prop :=
  ino.typ = FileType.dir →
    2 ≤ ino.entries.length ∧
    (ino.entries.getD 0 zeroDirent).shown = dotName ∧
    (ino.entries.getD 1 zeroDirent).shown = dotdotName ∧
    ((ino.entries.drop 2).all
      (fun e => !(e.shown == dotName) && !(e.shown == dotdotName))) = true

/-- The claim's phrasing of the unlink precondition: the victim is a
non-directory, or a directory whose only non-zero entries are "." and
"..". -/
abbrev OnlyDots (ino : Inode) : Prop :=
  ino.typ ≠ FileType.dir ∨
    ∀ k, k < ino.entries.length → (ino.entries.getD k zeroDirent).inum ≠ 0 →
      ((ino.entries.getD k zeroDirent).shown = dotName ∨
        (ino.entries.getD k zeroDirent).shown = dotdotName)

/-- Concrete parent directory for the c7 witness: ".", "..", and "sub"
(inum 9) at index 2. -/
def c7dp : Inode :=
  ⟨FileType.dir, 2,
    [⟨7, storedBytes dotName⟩, ⟨8, storedBytes dotdotName⟩, ⟨9, storedBytes [115, 117, 98]⟩]⟩

/-- Concrete inode table for the c7 witness: inum 9 is an empty
directory. -/
def c7itable : Nat → Inode :=
  fun k =>
    if k = 9 then ⟨FileType.dir, 1, [⟨9, storedBytes dotName⟩, ⟨3, storedBytes dotdotName⟩]⟩
    else ⟨FileType.file, 1, []⟩

end Fs

end XvSix

namespace XvSix

namespace Proc

/-!
Model of pid allocation of kernel/src/proc.rs.

`next_pid` draws from a single global `AtomicU32` initialized to 1;
`fetch_add(1, Relaxed)` returns the old value and wraps modulo 2^32.
Slot allocation (proc.rs alloc, 598-633) hands the drawn pid to the first
UNUSED slot; `wait1` (438-469) clears a ZOMBIE child's slot back to
UNUSED, taking its pid, without touching the counter.
-/

/-- The u32 modulus. -/
def U32 : Nat := 2 ^ 32

/-- next_pid (proc.rs:73-77): return the counter and advance it with
wrapping u32 arithmetic. -/
def next_pid (c : Nat) : Nat × Nat := (c, (c + 1) % U32)

/-- Counter value before the k-th successful allocation: starts at 1,
advanced by next_pid each time. -/
def counterAfter : Nat → Nat
  | 0 => 1
  | k + 1 => (counterAfter (k) + 1) % U32

/-- The pid handed out by the k-th successful allocation (0-based). -/
def pidOf (k : Nat) : Nat := counterAfter k

/-- Process-table state: the pid counter plus the slots (`some pid` =
occupied, `none` = UNUSED). -/
structure PTState where
  ctr : Nat
  slots : List (Option Nat)

/-- Events against the process table: a successful-path allocation
attempt, or a wait1 reclaim of slot i. -/
inductive PEvent
  | alloc
  | reap (i : Nat)

/-- One event (proc.rs alloc 598-633 / wait1 438-469): alloc finds the
first UNUSED slot and installs the next pid there (failing silently when
no slot is free, as when kalloc or the scan fails); reap clears a slot
back to UNUSED, taking its pid. The counter is only ever touched by
alloc. -/
def pstep (s : PTState) (e : PEvent) : PTState × Option Nat :=
  match e with
  | PEvent.alloc =>
      match s.slots.findIdx? (fun o => o.isNone) with
      | some i =>
          let r := next_pid s.ctr
          ({ ctr := r.2, slots := s.slots.set i (some r.1) }, some r.1)
      | none => (s, none)
  | PEvent.reap i => ({ s with slots := s.slots.set i none }, none)

/-- Run events, collecting the assigned pids in order. -/
def prun (s : PTState) : List PEvent → PTState × List Nat
  | [] => (s, [])
  | e :: es =>
      let r1 := pstep s e
      let r2 := prun r1.1 es
      (r2.1, r1.2.toList ++ r2.2)

/-- The boot state: counter 1, all NPROC slots UNUSED. -/
def pinit : PTState := ⟨1, List.replicate NPROC none⟩

/-- The pids assigned over an event sequence from boot. -/
def pidsOf (es : List PEvent) : List Nat := (prun pinit es).2

end Proc

end XvSix

namespace XvSix

namespace Vm

/-!
Model of the page-table code of kernel/src/vm.rs together with the page
allocator of kernel/src/kalloc.rs.

Physical memory is a map from physical page address to 64-bit-word array
(index → value); the kernel's virt↔phys translation is a fixed offset, so
table walks are modelled directly on physical page addresses.  The free
list is the list of free physical page addresses, head first.  Panics
(`unwrap`, `assert!`, `expect`) are modelled as `none`/`VmErr.crash`.
-/

/-- Page size (x86_64.rs:22). -/
def PAGE_SIZE : Nat := 4096

/-- One mebibyte (vm.rs:30). -/
def MIB : Nat := 1024 * 1024

/-- One gibibyte (vm.rs:31). -/
def GIB : Nat := MIB * 1024

/-- End of the user half (param.rs USEREND). -/
def USEREND : Nat := 0x8000000000000

/-- Entry::PHYS_PAGE_MASK (vm.rs:38). -/
def PHYS_PAGE_MASK : Nat := 0x7FFFFFFFF000

/-- PageFlags::PRESENT (vm.rs:17). -/
def PRESENT : Nat := 1

/-- PageFlags::WRITE (vm.rs:18). -/
def WRITE : Nat := 2

/-- PageFlags::USER (vm.rs:19). -/
def USER : Nat := 4

/-- The word the allocator scribbles over freed pages
(Page::scribble writes 0b1010_1010 bytes, x86_64.rs:37-39). -/
def SCRIBBLE_WORD : Nat := 0xAAAAAAAAAAAAAAAA

/-- Machine state: page-allocator free list plus physical memory. -/
structure Mach where
  free : List Nat
  mem : Nat → Nat → Nat

/-- Write one word of one page. -/
def writeWord (m : Mach) (p i v : Nat) : Mach :=
  { m with mem := fun q j => if q = p ∧ j = i then v else m.mem q j }

/-- Page::clear: zero a page. -/
def clearPage (m : Mach) (p : Nat) : Mach :=
  { m with mem := fun q j => if q = p then 0 else m.mem q j }

/-- Page::scribble: fill a page with the scribble byte. -/
def scribblePage (m : Mach) (p : Nat) : Mach :=
  { m with mem := fun q j => if q = p then SCRIBBLE_WORD else m.mem q j }

/-- kalloc::alloc (kalloc.rs:26-33, 51-53): pop the free-list head and
zero it; `none` when the list is empty. -/
def kalloc : Mach → Option (Nat × Mach)
  | ⟨[], _⟩ => none
  | ⟨p :: rest, mem⟩ => some (p, clearPage ⟨rest, mem⟩ p)

/-- kalloc::free (kalloc.rs:15-24, 47-49): scribble the page and push it
onto the free list. -/
def kfree (m : Mach) (p : Nat) : Mach :=
  let m1 := scribblePage m p
  { m1 with free := p :: m1.free }

/-- Entry::new (vm.rs:40-42). -/
def entryNew (pa flags : Nat) : Nat := (pa &&& PHYS_PAGE_MASK) ||| flags

/-- Entry::is_present (vm.rs:48-50). -/
def entryPresent (e : Nat) : Bool := (e &&& PRESENT) == PRESENT

/-- Entry::phys_page_addr (vm.rs:60-62). -/
def entryPhys (e : Nat) : Nat := e &&& PHYS_PAGE_MASK

/-- Entry::enable (vm.rs:68-70). -/
def entryEnable (e : Nat) : Nat := e ||| PRESENT

/-- Level4::index (vm.rs:90-94). -/
def ix4 (va : Nat) : Nat := (va >>> 39) &&& 0x1FF

/-- Level3::index (vm.rs:96-100). -/
def ix3 (va : Nat) : Nat := (va >>> 30) &&& 0x1FF

/-- Level2::index (vm.rs:102-106). -/
def ix2 (va : Nat) : Nat := (va >>> 21) &&& 0x1FF

/-- Level1::index (vm.rs:108-112). -/
def ix1 (va : Nat) : Nat := (va >>> 12) &&& 0x1FF

/-- Table::next (vm.rs:143-150): follow a present entry down one level. -/
def next (m : Mach) (t k : Nat) : Option Nat :=
  let e := m.mem t k
  if entryPresent e then some (entryPhys e) else none

/-- Table::next_mut (vm.rs:152-164): follow a present entry, or allocate,
clear and install a fresh next-level table with USER|WRITE|PRESENT. -/
def next_mut (m : Mach) (t k : Nat) : Option (Nat × Mach) :=
  let e := m.mem t k
  if entryPresent e then some (entryPhys e, m)
  else
    match kalloc m with
    | none => none
    | some (p, m1) =>
        let e1 := entryNew p (PRESENT ||| USER ||| WRITE)
        some (entryPhys e1, writeWord (clearPage m1 p) t k e1)

/-- Errors of the vm layer (constructors named after the Rust messages;
`crash` stands for a panic via expect/unwrap). -/
inductive VmErr
  | noPageTable
  | allocFailed
  | allocUserFailed
  | userOverflow
  | crash
  deriving DecidableEq

/-- PageTable::map_to (vm.rs:295-310): walk the four levels with
next_mut, then write the leaf entry `Entry::new(pa, flags).enable()`.
The machine reflects any intermediate tables allocated before a
failure. -/
def map_to (m : Mach) (root : Option Nat) (pa va flags : Nat) : Mach × Option VmErr :=
  match root with
  | none => (m, some VmErr.noPageTable)
  | some r =>
      match next_mut m r (ix4 va) with
      | none => (m, some VmErr.allocFailed)
      | some (t3, m1) =>
          match next_mut m1 t3 (ix3 va) with
          | none => (m1, some VmErr.allocFailed)
          | some (t2, m2) =>
              match next_mut m2 t2 (ix2 va) with
              | none => (m2, some VmErr.allocFailed)
              | some (t1, m3) =>
                  (writeWord m3 t1 (ix1 va) (entryEnable (entryNew pa flags)), none)

/-- PageTable::translate (vm.rs:276-285). -/
def translate (m : Mach) (root : Option Nat) (va : Nat) : Option Nat :=
  match root with
  | none => none
  | some r =>
      (next m r (ix4 va)).bind fun t3 =>
      (next m t3 (ix3 va)).bind fun t2 =>
      (next m t2 (ix2 va)).bind fun t1 =>
      let e := m.mem t1 (ix1 va)
      if entryPresent e then some (entryPhys e + va % PAGE_SIZE) else none

/-- arch::page_round_up (x86_64.rs:75-77). -/
def page_round_up (v : Nat) : Nat := (PAGE_SIZE - v % PAGE_SIZE) % PAGE_SIZE + v

/-- Table::is_empty (vm.rs:166-168): all 512 entries zero. -/
def tableEmpty (m : Mach) (t : Nat) : Bool :=
  (List.range 512).all (fun i => m.mem t i == 0)

/-- The page-walk loop of Table<Level1>::free_user_pages (vm.rs:246-255):
for each page in the range, free the backing page of a present entry and
clear the entry. `cnt` is the number of loop iterations. -/
def freeTable1Iter (m : Mach) (t1 va cnt : Nat) : Mach :=
  match cnt with
  | 0 => m
  | cnt + 1 =>
      let k := ix1 va
      let e := m.mem t1 k
      let m1 := if entryPresent e then writeWord (kfree m (entryPhys e)) t1 k 0 else m
      freeTable1Iter m1 t1 (va + PAGE_SIZE) cnt

/-- Table<Level1>::free_user_pages (vm.rs:241-257): guard, asserts
(alignment and range at most 2 MiB; `none` on violation), then the page
loop. -/
def freeTable1 (m : Mach) (t1 start endv : Nat) : Option Mach :=
  if start < endv then
    if start % PAGE_SIZE = 0 ∧ endv % PAGE_SIZE = 0 ∧ endv - start ≤ 2 * MIB then
      some (freeTable1Iter m t1 start ((endv - start + PAGE_SIZE - 1) / PAGE_SIZE))
    else none
  else some m

/-- The chunk loop of Table<Level2>::free_user_pages (vm.rs:203-218):
2 MiB steps from `start & (2*MIB - 1)`; at each present entry recurse
into the level-1 table and free it when it became empty. -/
def freeTable2Iter (m : Mach) (t2 start endv va cnt : Nat) : Option Mach :=
  match cnt with
  | 0 => some m
  | cnt + 1 =>
      let end2 := min endv (va + 2 * MIB)
      let k := ix2 va
      let e := m.mem t2 k
      if entryPresent e then
        match freeTable1 m (entryPhys e) (max start va) end2 with
        | none => none
        | some m1 =>
            let m2 :=
              if tableEmpty m1 (entryPhys e) then writeWord (kfree m1 (entryPhys e)) t2 k 0
              else m1
            freeTable2Iter m2 t2 start endv (va + 2 * MIB) cnt
      else freeTable2Iter m t2 start endv (va + 2 * MIB) cnt

/-- Table<Level2>::free_user_pages (vm.rs:197-221): note the chunk abuse
`lstart = start & (2 * MIB - 1)` — the remainder of `start`, not its
2 MiB-aligned round-down. -/
def freeTable2 (m : Mach) (t2 start endv : Nat) : Option Mach :=
  if start < endv then
    if start % PAGE_SIZE = 0 ∧ endv % PAGE_SIZE = 0 ∧ endv - start ≤ GIB then
      let lstart := start &&& (2 * MIB - 1)
      let cnt := if lstart < endv then (endv - lstart + 2 * MIB - 1) / (2 * MIB) else 0
      freeTable2Iter m t2 start endv lstart cnt
    else none
  else some m

/-- The chunk loop of Table<Level3>::free_user_pages (vm.rs:177-193):
1 GiB steps from `start & (GIB - 1)`. -/
def freeTable3Iter (m : Mach) (t3 start endv va cnt : Nat) : Option Mach :=
  match cnt with
  | 0 => some m
  | cnt + 1 =>
      let end2 := min endv (va + GIB)
      let k := ix3 va
      let e := m.mem t3 k
      if entryPresent e then
        match freeTable2 m (entryPhys e) (max start va) end2 with
        | none => none
        | some m1 =>
            let m2 :=
              if tableEmpty m1 (entryPhys e) then writeWord (kfree m1 (entryPhys e)) t3 k 0
              else m1
            freeTable3Iter m2 t3 start endv (va + GIB) cnt
      else freeTable3Iter m t3 start endv (va + GIB) cnt

/-- Table<Level3>::free_user_pages (vm.rs:172-195). -/
def freeTable3 (m : Mach) (t3 start endv : Nat) : Option Mach :=
  if start < endv then
    if start % PAGE_SIZE = 0 ∧ endv % PAGE_SIZE = 0 ∧ endv - start ≤ 512 * GIB then
      let lstart := start &&& (GIB - 1)
      let cnt := if lstart < endv then (endv - lstart + GIB - 1) / GIB else 0
      freeTable3Iter m t3 start endv lstart cnt
    else none
  else some m

/-- The chunk loop of PageTable::free_user_pages (vm.rs:403-417):
512 GiB steps from `start & (512 * GIB - 1)`. -/
def freeL4Iter (m : Mach) (r start endv va cnt : Nat) : Option Mach :=
  match cnt with
  | 0 => some m
  | cnt + 1 =>
      let end2 := min endv (va + 512 * GIB)
      let k := ix4 va
      let e := m.mem r k
      if entryPresent e then
        match freeTable3 m (entryPhys e) (max start va) end2 with
        | none => none
        | some m1 =>
            let m2 :=
              if tableEmpty m1 (entryPhys e) then writeWord (kfree m1 (entryPhys e)) r k 0
              else m1
            freeL4Iter m2 r start endv (va + 512 * GIB) cnt
      else freeL4Iter m r start endv (va + 512 * GIB) cnt

/-- PageTable::free_user_pages (vm.rs:397-419): page-round the bounds,
unwrap the root (`none` on a null page table), walk the 512 GiB chunks. -/
def free_user_pages (m : Mach) (root : Option Nat) (start endv : Nat) : Option Mach :=
  if start < endv then
    let start := page_round_up start
    let endv := page_round_up endv
    match root with
    | none => none
    | some r =>
        let lstart := start &&& (512 * GIB - 1)
        let cnt := if lstart < endv then (endv - lstart + 512 * GIB - 1) / (512 * GIB) else 0
        freeL4Iter m r start endv lstart cnt
  else some m

/-- PageTable::dealloc_user (vm.rs:389-395). -/
def dealloc_user (m : Mach) (root : Option Nat) (old_size new_size : Nat) :
    Mach × Except VmErr Nat :=
  if new_size ≥ old_size then (m, Except.ok old_size)
  else
    match free_user_pages m root new_size old_size with
    | some m1 => (m1, Except.ok new_size)
    | none => (m, Except.error VmErr.crash)

/-- The page loop of PageTable::alloc_user (vm.rs:376-385): allocate a
fresh page and map it; stop with the error (the state as of the failure
point, before the error-path dealloc) when allocation or mapping fails. -/
def allocUserGo (m : Mach) (root : Option Nat) (flags va n : Nat) : Mach × Option VmErr :=
  match n with
  | 0 => (m, none)
  | n + 1 =>
      match kalloc m with
      | none => (m, some VmErr.allocUserFailed)
      | some (p, m1) =>
          let r := map_to m1 root p va (flags ||| USER)
          match r.2 with
          | some e => (r.1, some e)
          | none => allocUserGo r.1 root flags (va + PAGE_SIZE) n

/-- PageTable::alloc_user (vm.rs:362-387): bounds checks, the page loop
over the rounded range, and on failure `dealloc_user(new_size, old_size)`
before returning the error. -/
def alloc_user (m : Mach) (root : Option Nat) (old_size new_size flags : Nat) :
    Mach × Except VmErr Nat :=
  if new_size > USEREND then (m, Except.error VmErr.userOverflow)
  else if new_size ≤ old_size then (m, Except.ok old_size)
  else
    let old_end := page_round_up old_size
    let new_end := page_round_up new_size
    let r := allocUserGo m root flags old_end ((new_end - old_end) / PAGE_SIZE)
    match r.2 with
    | none => (r.1, Except.ok new_size)
    | some e =>
        match dealloc_user r.1 root new_size old_size with
        | (m2, Except.ok _) => (m2, Except.error e)
        | (m2, Except.error _) => (m2, Except.error VmErr.crash)

/-- C6 failing input: a machine whose allocator holds exactly one free
page, and an existing (empty) level-4 table at 0x1000. -/
def c6m0 : Mach := ⟨[0x5000], fun _ _ => 0⟩

/-- The page table of the C6 failing input. -/
def c6root : Option Nat := some 0x1000

/-- C2 failing input: a machine with twelve free pages and an empty
level-4 table at 0x10000. -/
def c2m0 : Mach :=
  ⟨[0x21000, 0x22000, 0x23000, 0x24000, 0x25000, 0x26000,
    0x27000, 0x28000, 0x29000, 0x2A000, 0x2B000, 0x2C000], fun _ _ => 0⟩

/-- The page table of the C2 failing input. -/
def c2root : Option Nat := some 0x10000

/-- After alloc_user(pt, 0, 0x2000, WRITE). -/
def c2s1 : Mach × Except VmErr Nat := alloc_user c2m0 c2root 0 0x2000 WRITE

/-- After alloc_user(pt, 0x1FE000, 0x202000, WRITE). -/
def c2s2 : Mach × Except VmErr Nat := alloc_user c2s1.1 c2root 0x1FE000 0x202000 WRITE

/-- After dealloc_user(pt, 0x202000, 0x1FE000). -/
def c2s3 : Mach × Except VmErr Nat := dealloc_user c2s2.1 c2root 0x202000 0x1FE000

end Vm

end XvSix

namespace XvSix

namespace Fslog

/-- After a recovery run the header block holds count zero. -/
theorem recover_headerCount_zero (start size : Nat) (d d1 : Disk)
    (h : recover start size d = some d1) : headerCount start d1 = 0 := by
  unfold recover at h
  cases hr : Log.read start size d with
  | none => rw [hr] at h; cases h
  | some blocks =>
      rw [hr] at h
      injection h with h
      subst h
      simp [headerCount, Log.writeHeader, diskWrite]

/-- Writing a zero-count header over a disk whose header already has count
zero changes nothing. -/
theorem writeHeader_nil_idem (start : Nat) (d : Disk) (h : headerCount start d = 0) :
    Log.writeHeader start [] d = d := by
  unfold Log.writeHeader diskWrite
  funext x
  by_cases hx : x = start
  · subst hx
    simp only [if_pos rfl]
    funext w
    by_cases hw : w = 0
    · subst hw
      simpa [headerCount] using h.symm
    · simp [hw, List.length_nil]
  · simp [hx]

/-- C1. Log recovery is idempotent: if the boot recovery procedure runs
without panicking (journal header count below `LOGSIZE` and below
`size - 1`, log area of at least two blocks), running it a second time
leaves the disk exactly as after the first run.  (fslog.rs init/recover,
lines 246-258.) -/
theorem c1_recover_idempotent (start size : Nat) (d d1 : Fslog.Disk)
    (hsize : 2 ≤ size) (h : recover start size d = some d1) :
    recover start size d1 = some d1 := by
  have hc : headerCount start d1 = 0 := recover_headerCount_zero start size d d1 h
  have hread : Log.read start size d1 = some [] := by
    unfold Log.read
    rw [hc]
    have h1 : ¬(0 ≥ LOGSIZE ∨ 0 ≥ size - 1) := by
      push_neg
      constructor
      · decide
      · omega
    rw [if_neg h1]
    simp [headerBlocks, hc]
  unfold recover
  rw [hread]
  show some (Log.writeHeader start [] (Log.commit start [] d1)) = some d1
  have hcommit : Log.commit start [] d1 = d1 := rfl
  rw [hcommit, writeHeader_nil_idem start d1 hc]

/-- Witness: the idempotence theorem applies to the concrete journal
`c1Disk` with log start 2 and log size 4. -/
theorem c1_recover_idempotent_witness :
    2 ≤ 4 ∧ recover 2 4 c1Disk = some c1DiskOnce ∧ recover 2 4 c1DiskOnce = some c1DiskOnce := by
  have h0 : (recover 2 4 c1Disk).isSome = true := rfl
  exact ⟨by decide, (Option.some_get h0).symm,
    c1_recover_idempotent 2 4 c1Disk c1DiskOnce (by decide) (Option.some_get h0).symm⟩

/-- C3 counterexample: with no commit in progress, `outstanding = 0` and
448 blocks already in the log, the claimed admission condition
`(outstanding + 1) * MAXOPBLOCKS ≤ LOGSIZE` holds, yet op::begin does not
admit the operation: it sleeps, because the code also counts the current
log length. -/
theorem c3_begin_claim_counterexample :
    (0 + 1) * MAXOPBLOCKS ≤ LOGSIZE ∧ beginStep false 0 448 = BeginOutcome.blocked := by
  constructor
  · decide
  · decide

/-- C3 amended. op::begin admits a new operation, incrementing
`outstanding`, exactly when the log is not committing and the current
log length plus `(outstanding + 1) * MAXOPBLOCKS` fits in `LOGSIZE`;
in every other state the iteration sleeps.  (fslog.rs:185-202.) -/
theorem c3_begin_admit_iff (committing : Bool) (outstanding len : Nat) :
    (beginStep committing outstanding len = BeginOutcome.proceed (outstanding + 1) ↔
      committing = false ∧ len + (outstanding + 1) * MAXOPBLOCKS ≤ LOGSIZE) ∧
    (beginStep committing outstanding len = BeginOutcome.blocked ↔
      ¬(committing = false ∧ len + (outstanding + 1) * MAXOPBLOCKS ≤ LOGSIZE)) := by
  unfold beginStep
  cases committing with
  | true => simp
  | false =>
      by_cases hlen : len + (outstanding + 1) * MAXOPBLOCKS > LOGSIZE
      · rw [if_neg (by simp), if_pos hlen]
        constructor
        · constructor
          · intro hcon; cases hcon
          · intro hcon; omega
        · constructor
          · intro _; omega
          · intro _; rfl
      · rw [if_neg (by simp), if_neg hlen]
        constructor
        · constructor
          · intro _; exact ⟨rfl, by omega⟩
          · intro _; rfl
        · constructor
          · intro hcon; cases hcon
          · intro hcon; exfalso; exact hcon ⟨rfl, by omega⟩

end Fslog

end XvSix

namespace XvSix

namespace Pipe

/-- Reading from a pipe whose counters have not wrapped splits off the
head of the FIFO contents. -/
theorem contents_cons (nr nw : Nat) (dt : Nat → Nat) (ro wo : Bool) (h : nr < nw) :
    contents ⟨nr, nw, dt, ro, wo⟩ =
      dt (nr % PIPESIZE) :: contents ⟨nr + 1, nw, dt, ro, wo⟩ := by
  unfold contents avail
  simp only
  have hav : nw - nr = (nw - (nr + 1)) + 1 := by omega
  rw [hav, List.range_succ_eq_map, List.map_cons, List.map_map]
  have harg : (fun i => dt ((nr + i) % PIPESIZE)) ∘ Nat.succ
      = fun i => dt ((nr + 1 + i) % PIPESIZE) := by
    funext i
    have : nr + (i + 1) = nr + 1 + i := by omega
    simp [Function.comp, Nat.succ_eq_add_one, this]
  rw [harg]
  simp

/-- Specification of the read loop: on a non-wrapped pipe it returns the
first `min k avail` buffered bytes in FIFO order and advances `nread` by
that amount. -/
theorem readBytes_spec (k : Nat) (p : Pipe) (hle : p.nread ≤ p.nwrite)
    (hlt : p.nwrite < USIZE) :
    readBytes p k = ((contents p).take k, { p with nread := p.nread + min k (avail p) }) := by
  induction k generalizing p with
  | zero =>
      obtain ⟨nr, nw, dt, ro, wo⟩ := p
      simp [readBytes, avail]
  | succ k ih =>
      obtain ⟨nr, nw, dt, ro, wo⟩ := p
      simp only at hle hlt
      by_cases he : nr = nw
      · subst he
        have he2 : Pipe.is_empty ⟨nr, nr, dt, ro, wo⟩ = true := by
          simp [Pipe.is_empty]
        simp [readBytes, he2, contents, avail]
      · have hlt2 : nr < nw := lt_of_le_of_ne hle he
        have he2 : Pipe.is_empty ⟨nr, nw, dt, ro, wo⟩ = false := by
          simp [Pipe.is_empty, he]
        have hmod : (nr + 1) % USIZE = nr + 1 := Nat.mod_eq_of_lt (by omega)
        have hrec := ih ⟨nr + 1, nw, dt, ro, wo⟩ (by simpa using hlt2) (by simpa using hlt)
        simp only [readBytes, he2, Bool.false_eq_true, if_false, Pipe.read_byte, hmod]
        rw [hrec, contents_cons nr nw dt ro wo hlt2]
        simp only [List.take_succ_cons, Prod.mk.injEq, true_and]
        have harith : nr + 1 + min k (avail ⟨nr + 1, nw, dt, ro, wo⟩)
            = nr + min (k + 1) (avail ⟨nr, nw, dt, ro, wo⟩) := by
          simp only [avail]
          omega
        rw [harith]

/-- Reading from an empty pipe consumes nothing. -/
theorem readBytes_empty (k : Nat) (p : Pipe) (he : p.is_empty = true) :
    readBytes p k = ([], p) := by
  cases k with
  | zero => rfl
  | succ k => simp [readBytes, he]

/-- Writing bytes with the ring never observed full just folds
`write_byte` over the bytes and wakes the reader channel once. -/
theorem writeGo_no_full (bytes : List Nat) (p : Pipe) (acc : List Chan)
    (hle : p.nread ≤ p.nwrite) (hcap : p.nwrite - p.nread + bytes.length ≤ PIPESIZE)
    (hbig : p.nread + PIPESIZE < USIZE) :
    writeGo p bytes acc = WriteOutcome.ok (bytes.foldl Pipe.write_byte p) (acc ++ [Chan.readChan]) := by
  induction bytes generalizing p with
  | nil => rfl
  | cons b rest ih =>
      obtain ⟨nr, nw, dt, ro, wo⟩ := p
      simp only at hle hcap hbig
      have hmodfull : (nr + PIPESIZE) % USIZE = nr + PIPESIZE := Nat.mod_eq_of_lt hbig
      have hfull : Pipe.is_full ⟨nr, nw, dt, ro, wo⟩ = false := by
        simp only [Pipe.is_full, hmodfull, beq_eq_false_iff_ne, ne_eq]
        simp only [List.length_cons] at hcap
        omega
      have hmodw : (nw + 1) % USIZE = nw + 1 := by
        simp only [List.length_cons] at hcap
        exact Nat.mod_eq_of_lt (by omega)
      simp only [writeGo, hfull, Bool.false_eq_true, if_false, List.foldl_cons]
      have hwb : Pipe.write_byte ⟨nr, nw, dt, ro, wo⟩ b
          = ⟨nr, nw + 1, fun i => if i = nw % PIPESIZE then b else dt i, ro, wo⟩ := by
        simp [Pipe.write_byte, hmodw]
      rw [hwb]
      refine ih _ ?_ ?_ ?_
      · show nr ≤ nw + 1
        omega
      · show nw + 1 - nr + rest.length ≤ PIPESIZE
        simp only [List.length_cons] at hcap
        omega
      · exact hbig

/-- C5. Pipe semantics (pipe.rs PipeReader::read 121-137, PipeWriter::write
157-172): a read blocks while the pipe is empty with the write end open;
once readable it returns the first `min (requested, buffered)` bytes in
FIFO order; an empty pipe with the writer closed reads 0 bytes (EOF); a
write finding the pipe full fails with broken pipe when the read end is
closed and otherwise blocks; and in scenario S2, after AB is written and
the writer closed, a 4-byte read returns exactly AB and the next read
returns 0 bytes. -/
theorem c5_pipe_semantics :
    (∀ (p : Pipe) (k : Nat), p.readable = false → PipeReader.read p k = ReadOutcome.blocked) ∧
    (∀ (p : Pipe) (k : Nat), p.readable = true → p.nread ≤ p.nwrite → p.nwrite < USIZE →
      PipeReader.read p k
          = ReadOutcome.ok ((contents p).take k)
              { p with nread := p.nread + min k (avail p) } [Chan.writeChan] ∧
        ((contents p).take k).length = min k (avail p)) ∧
    (∀ (p : Pipe) (k : Nat), p.is_empty = true → p.write_open = false →
      PipeReader.read p k = ReadOutcome.ok [] p [Chan.writeChan]) ∧
    (∀ (p : Pipe) (b : Nat) (bs : List Nat), p.is_full = true → p.broken = true →
      PipeWriter.write p (b :: bs) = WriteOutcome.brokenPipe p []) ∧
    (∀ (p : Pipe) (b : Nat) (bs : List Nat), p.is_full = true → p.broken = false →
      PipeWriter.write p (b :: bs) = WriteOutcome.blocked p [Chan.readChan]) ∧
    (wAB.isOk = true ∧ rFirst.bytesOf = some [65, 66] ∧ rSecond.bytesOf = some []) := by
  refine ⟨?_, ?_, ?_, ?_, ?_, by decide⟩
  · intro p k h
    simp [PipeReader.read, h]
  · intro p k h hle hlt
    rw [PipeReader.read, readBytes_spec k p hle hlt]
    refine ⟨by simp [h], ?_⟩
    simp [List.length_take, contents]
  · intro p k he hw
    have hr : p.readable = true := by
      simp [Pipe.readable, hw]
    rw [PipeReader.read, readBytes_empty k p he]
    simp [hr]
  · intro p b bs hf hb
    simp [PipeWriter.write, writeGo, hf, hb]
  · intro p b bs hf hb
    simp [PipeWriter.write, writeGo, hf, hb]

/-- Witness: the c5 conjuncts applied at concrete pipes: a fresh empty
pipe blocks a read, the two-byte pipe yields its FIFO contents, and a
full pipe with closed read end breaks a write. -/
theorem c5_pipe_semantics_witness :
    (pFresh.readable = false ∧ PipeReader.read pFresh 3 = ReadOutcome.blocked) ∧
    (pTwo.readable = true ∧ pTwo.nread ≤ pTwo.nwrite ∧ pTwo.nwrite < USIZE ∧
      PipeReader.read pTwo 4
        = ReadOutcome.ok ((contents pTwo).take 4)
            { pTwo with nread := pTwo.nread + min 4 (avail pTwo) } [Chan.writeChan]) ∧
    (pFullBroken.is_full = true ∧ pFullBroken.broken = true ∧
      PipeWriter.write pFullBroken [7] = WriteOutcome.brokenPipe pFullBroken []) :=
  ⟨⟨by decide, c5_pipe_semantics.1 pFresh 3 (by decide)⟩,
    ⟨by decide, by decide, by decide,
      (c5_pipe_semantics.2.1 pTwo 4 (by decide) (by decide) (by decide)).1⟩,
    ⟨by decide, by decide,
      c5_pipe_semantics.2.2.2.1 pFullBroken 7 [] (by decide) (by decide)⟩⟩

/-- C8 counterexample: a single write call that transfers the two bytes
AB into an empty pipe issues exactly one wakeup of the reader channel,
not one per byte; likewise the read call that consumes the two bytes
issues exactly one wakeup of the writer channel. -/
theorem c8_wakeup_per_byte_counterexample :
    wAB.isOk = true ∧ wAB.wakeupsOf.length = 1 ∧
    ¬(wAB.wakeupsOf.length = [65, 66].length) ∧
    rFirst.bytesOf = some [65, 66] ∧ rFirst.wakeupsOf.length = 1 ∧
    ¬(rFirst.wakeupsOf.length = 2) := by
  decide

/-- C8 amended. A pipe write call that never finds the ring full wakes
the reader channel exactly once, after the last byte is stored (plus, in
general, once before every sleep taken on a full ring); a pipe read call
that finds the pipe readable wakes the writer channel exactly once after
the copy loop.  (pipe.rs:157-172 and 121-137.) -/
theorem c8_single_wakeup_per_call (p : Pipe) (bytes : List Nat) (k : Nat)
    (hle : p.nread ≤ p.nwrite) (hcap : p.nwrite - p.nread + bytes.length ≤ PIPESIZE)
    (hbig : p.nread + PIPESIZE < USIZE) :
    PipeWriter.write p bytes
        = WriteOutcome.ok (bytes.foldl Pipe.write_byte p) [Chan.readChan] ∧
    (PipeWriter.write p bytes).wakeupsOf = [Chan.readChan] ∧
    (p.readable = true → (PipeReader.read p k).wakeupsOf = [Chan.writeChan]) := by
  have hw := writeGo_no_full bytes p [] hle hcap hbig
  refine ⟨by simpa [PipeWriter.write] using hw, ?_, ?_⟩
  · rw [PipeWriter.write, hw]
    simp [WriteOutcome.wakeupsOf]
  · intro h
    rcases hrb : readBytes p k with ⟨bs, p1⟩
    simp [PipeReader.read, h, hrb, ReadOutcome.wakeupsOf]

/-- Witness: the single-wakeup theorem applied to the two-byte pipe and a
two-byte write. -/
theorem c8_single_wakeup_witness :
    pTwo.nread ≤ pTwo.nwrite ∧ pTwo.nwrite - pTwo.nread + [7, 8].length ≤ PIPESIZE ∧
    pTwo.nread + PIPESIZE < USIZE ∧
    (PipeWriter.write pTwo [7, 8]).wakeupsOf = [Chan.readChan] :=
  ⟨by decide, by decide, by decide,
    (c8_single_wakeup_per_call pTwo [7, 8] 1 (by decide) (by decide) (by decide)).2.1⟩

end Pipe

end XvSix

namespace XvSix

namespace Bio

/-- The initial cache satisfies the invariant. -/
theorem binv_init : BInv bcacheInit := by
  constructor
  · intro i h
    simp [bcacheInit, initBuf] at h
  · intro i j hne hi
    simp [bcacheInit, initBuf] at hi

/-- Updating one slot without changing its identity or assignment
preserves the invariant. -/
theorem binv_of_update (c : BCache) (i : Nat) (f : Buf → Buf)
    (hdev : ∀ b, (f b).dev = b.dev) (hbno : ∀ b, (f b).blockno = b.blockno)
    (hass : ∀ b, (f b).assigned = b.assigned)
    (h : BInv c) : BInv (updateBuf c i f) := by
  obtain ⟨hmem, huniq⟩ := h
  constructor
  · intro x hx
    simp only [updateBuf] at hx ⊢
    by_cases hxi : x = i
    · rw [if_pos hxi, hass] at hx
      exact hmem x hx
    · rw [if_neg hxi] at hx
      exact hmem x hx
  · intro x y hne hx hy
    simp only [updateBuf] at hx hy ⊢
    by_cases hxi : x = i <;> by_cases hyi : y = i
    · exact absurd (hxi.trans hyi.symm) hne
    · rw [if_pos hxi, hass] at hx
      rw [if_neg hyi] at hy
      rw [if_pos hxi, if_neg hyi, hdev, hbno]
      exact huniq x y hne hx hy
    · rw [if_neg hxi] at hx
      rw [if_pos hyi, hass] at hy
      rw [if_neg hxi, if_pos hyi, hdev, hbno]
      exact huniq x y hne hx hy
    · rw [if_neg hxi] at hx
      rw [if_neg hyi] at hy
      rw [if_neg hxi, if_neg hyi]
      exact huniq x y hne hx hy

/-- Replacing the LRU order with any list containing at least the same
slots preserves the invariant. -/
theorem binv_of_order (c : BCache) (l : List Nat) (hsub : ∀ x ∈ c.order, x ∈ l)
    (h : BInv c) : BInv { c with order := l } := by
  obtain ⟨hmem, huniq⟩ := h
  exact ⟨fun x hx => hsub x (hmem x hx), huniq⟩

/-- Every step of the cache preserves the invariant. -/
theorem binv_step (c : BCache) (op : BOp) (h : BInv c) : BInv (bstep c op) := by
  cases op with
  | get dev blockno =>
      show BInv (bget c dev blockno).1
      unfold bget
      cases hfind : c.order.find? (fun i => ((c.bufs i).dev == dev) && ((c.bufs i).blockno == blockno)) with
      | some i =>
          show BInv (updateBuf c i (fun b => { b with ref_cnt := b.ref_cnt + 1 }))
          exact binv_of_update c i _ (fun b => rfl) (fun b => rfl) (fun b => rfl) h
      | none =>
          cases hvict : c.order.reverse.find? (fun i => ((c.bufs i).ref_cnt == 0) && (!(c.bufs i).dirty)) with
          | some v =>
              obtain ⟨hmem, huniq⟩ := h
              have hvmem : v ∈ c.order :=
                List.mem_reverse.mp (List.mem_of_find?_eq_some hvict)
              have hnone : ∀ x ∈ c.order,
                  ¬(((c.bufs x).dev == dev) && ((c.bufs x).blockno == blockno)) = true := by
                intro x hx
                have := List.find?_eq_none.mp hfind x hx
                simpa using this
              constructor
              · intro x hx
                simp only [updateBuf] at hx
                by_cases hxv : x = v
                · subst hxv; exact hvmem
                · rw [if_neg hxv] at hx
                  exact hmem x hx
              · intro x y hne hx hy
                simp only [updateBuf] at hx hy ⊢
                by_cases hxv : x = v <;> by_cases hyv : y = v
                · exact absurd (hxv.trans hyv.symm) hne
                · subst hxv
                  rw [if_neg hyv] at hy
                  rw [if_pos rfl, if_neg hyv]
                  intro hcon
                  have hy0 := hmem y hy
                  have hn := hnone y hy0
                  simp only [Bool.and_eq_true, beq_iff_eq, not_and] at hn
                  simp only at hcon
                  exact hn hcon.1.symm hcon.2.symm
                · subst hyv
                  rw [if_neg hxv] at hx
                  rw [if_neg hxv, if_pos rfl]
                  intro hcon
                  have hx0 := hmem x hx
                  have hn := hnone x hx0
                  simp only [Bool.and_eq_true, beq_iff_eq, not_and] at hn
                  simp only at hcon
                  exact hn hcon.1 hcon.2
                · rw [if_neg hxv] at hx
                  rw [if_neg hyv] at hy
                  rw [if_neg hxv, if_neg hyv]
                  exact huniq x y hne hx hy
          | none =>
              exact h
  | rel i =>
      show BInv (relse c i)
      unfold relse
      have h1 : BInv (updateBuf c i (fun b => { b with ref_cnt := b.ref_cnt - 1 })) :=
        binv_of_update c i _ (fun b => rfl) (fun b => rfl) (fun b => rfl) h
      by_cases hz : ((updateBuf c i (fun b => { b with ref_cnt := b.ref_cnt - 1 })).bufs i).ref_cnt = 0
      · rw [if_pos hz]
        refine binv_of_order _ _ ?_ h1
        intro x hx
        by_cases hxi : x = i
        · subst hxi; exact List.mem_cons_self _ _
        · exact List.mem_cons_of_mem _ ((List.mem_erase_of_ne hxi).mpr hx)
      · rw [if_neg hz]
        exact h1
  | logw i =>
      show BInv (updateBuf c i (fun b => { b with dirty := true }))
      exact binv_of_update c i _ (fun b => rfl) (fun b => rfl) (fun b => rfl) h
  | ddone i =>
      show BInv (updateBuf c i (fun b => { b with valid := true, dirty := false }))
      exact binv_of_update c i _ (fun b => rfl) (fun b => rfl) (fun b => rfl) h

/-- The invariant holds after any operation sequence. -/
theorem binv_run (ops : List BOp) : BInv (brun ops) := by
  unfold brun
  induction ops using List.reverseRecOn with
  | nil => exact binv_init
  | append_singleton ops op ih =>
      rw [List.foldl_append, List.foldl_cons, List.foldl_nil]
      exact binv_step _ op ih

/-- C4. The block cache holds at most one buffer per (dev, blockno)
identity at every observable point: after any sequence of cache
operations starting from the initialized cache, no two distinct buffer
slots carry the same identity assigned by bget, so a cache hit is
unambiguous.  (bio.rs bget 229-260, init 208-227, relse 175-203.) -/
theorem c4_bcache_unique (ops : List BOp) (i j : Nat) (hne : i ≠ j)
    (hi : ((brun ops).bufs i).assigned = true)
    (hj : ((brun ops).bufs j).assigned = true) :
    ¬(((brun ops).bufs i).dev = ((brun ops).bufs j).dev ∧
      ((brun ops).bufs i).blockno = ((brun ops).bufs j).blockno) :=
  (binv_run ops).2 i j hne hi hj

/-- Witness: after bget(1,5) and bget(1,6) the two assigned buffers (the
two LRU-tail victims, slots 511 and 510) carry distinct identities. -/
theorem c4_bcache_unique_witness :
    (511 : Nat) ≠ 510 ∧
    ((brun [BOp.get 1 5, BOp.get 1 6]).bufs 511).assigned = true ∧
    ((brun [BOp.get 1 5, BOp.get 1 6]).bufs 510).assigned = true ∧
    ¬(((brun [BOp.get 1 5, BOp.get 1 6]).bufs 511).dev
        = ((brun [BOp.get 1 5, BOp.get 1 6]).bufs 510).dev ∧
      ((brun [BOp.get 1 5, BOp.get 1 6]).bufs 511).blockno
        = ((brun [BOp.get 1 5, BOp.get 1 6]).bufs 510).blockno) :=
  ⟨by decide, by decide, by decide,
    c4_bcache_unique [BOp.get 1 5, BOp.get 1 6] 511 510 (by decide) (by decide) (by decide)⟩

end Bio

end XvSix

namespace XvSix

namespace Fs

/-- Under the well-formed directory shape, the code's check (all entries
from index 2 on have zero inum) coincides with the claim's phrasing (the
only non-zero entries are "." and ".."). -/
theorem is_unlinkable_iff (ino : Inode) (hwf : WfDir ino) :
    is_unlinkable ino = true ↔ OnlyDots ino := by
  by_cases htyp : ino.typ = FileType.dir
  · obtain ⟨hlen, h0, h1, hno⟩ := hwf htyp
    unfold is_unlinkable
    rw [if_pos htyp]
    constructor
    · intro hall
      right
      intro k hk hnz
      match k, hk, hnz with
      | 0, hk, hnz => exact Or.inl h0
      | 1, hk, hnz => exact Or.inr h1
      | (j + 2), hk, hnz =>
          exfalso
          apply hnz
          have hj : j < (ino.entries.drop 2).length := by
            rw [List.length_drop]
            omega
          have hmem : (ino.entries.drop 2)[j] ∈ ino.entries.drop 2 := List.getElem_mem _
          have hz := (List.all_eq_true.mp hall) _ hmem
          have hgd : ino.entries.getD (j + 2) zeroDirent = (ino.entries.drop 2)[j] := by
            rw [List.getD_eq_getElem _ _ (by omega : j + 2 < ino.entries.length)]
            rw [List.getElem_drop]
            congr 1
            omega
          rw [hgd]
          simp only [beq_iff_eq] at hz
          exact hz
    · intro hdots
      cases hdots with
      | inl h => exact absurd htyp h
      | inr hdots =>
          rw [List.all_eq_true]
          intro e he
          by_contra hne
          have hnz : e.inum ≠ 0 := by
            intro h0e
            exact hne (by simp [h0e])
          have hmeme : e ∈ ino.entries := List.mem_of_mem_drop he
          obtain ⟨k, hk, hke⟩ := List.mem_iff_getElem.mp hmeme
          have hgd : ino.entries.getD k zeroDirent = e := by
            rw [List.getD_eq_getElem _ _ hk]
            exact hke
          have hshown := hdots k hk (by rw [hgd]; exact hnz)
          rw [hgd] at hshown
          have hall2 := (List.all_eq_true.mp hno) e he
          simp only [Bool.and_eq_true, Bool.not_eq_true', beq_eq_false_iff_ne, ne_eq] at hall2
          cases hshown with
          | inl h => exact hall2.1 h
          | inr h => exact hall2.2 h
  · unfold is_unlinkable
    rw [if_neg htyp]
    constructor
    · intro _
      exact Or.inl htyp
    · intro _
      rfl

/-- Once the lookup result is fixed, dir_unlink reduces to its guard
cascade. -/
theorem dir_unlink_eq_of_lookup (dp : Inode) (itable : Nat → Inode) (name : List Nat)
    (inum off : Nat)
    (hlook : dir_lookup_offset dp.entries name = some (inum, off)) :
    dir_unlink dp itable name =
      (if (itable inum).nlink = 0 then Except.error FsErr.crashNlink
       else if !is_unlinkable (itable inum) then Except.error FsErr.notLinkable
       else Except.ok
          ({ dp with
              entries := dp.entries.set off zeroDirent,
              nlink := if (itable inum).typ = FileType.dir then dp.nlink - 1 else dp.nlink },
            fun k => if k = inum then { itable k with nlink := (itable k).nlink - 1 }
              else itable k)) := by
  unfold dir_unlink
  rw [hlook]

/-- C7. dir_unlink (fs.rs:701-721): given that the name resolves to a
victim with positive link count in a well-formed directory tree,
dir_unlink fails with `not linkable` exactly when the victim is a
directory still holding an entry besides "." and ".." (leaving the
directory unchanged); otherwise it succeeds, overwriting the victim's
entry with a zeroed entry, decrementing the parent's nlink when the
victim is a directory, and decrementing the victim's nlink. -/
theorem c7_dir_unlink (dp : Inode) (itable : Nat → Inode) (name : List Nat)
    (inum off : Nat)
    (hlook : dir_lookup_offset dp.entries name = some (inum, off))
    (hnl : 0 < (itable inum).nlink)
    (hwf : WfDir (itable inum)) :
    (dir_unlink dp itable name = Except.error FsErr.notLinkable ↔ ¬OnlyDots (itable inum)) ∧
    (OnlyDots (itable inum) →
      dir_unlink dp itable name =
        Except.ok
          ({ dp with
              entries := dp.entries.set off zeroDirent,
              nlink := if (itable inum).typ = FileType.dir then dp.nlink - 1 else dp.nlink },
            fun k => if k = inum then { itable k with nlink := (itable k).nlink - 1 }
              else itable k)) := by
  have hnl0 : ¬((itable inum).nlink = 0) := by omega
  have hred := dir_unlink_eq_of_lookup dp itable name inum off hlook
  rw [if_neg hnl0] at hred
  constructor
  · constructor
    · intro herr
      intro hdots
      have hul : is_unlinkable (itable inum) = true := (is_unlinkable_iff _ hwf).mpr hdots
      rw [hred, hul] at herr
      simp only [Bool.not_true, Bool.false_eq_true, if_false] at herr
      cases herr
    · intro hnd
      have hul : is_unlinkable (itable inum) = false := by
        rw [← Bool.not_eq_true]
        intro h
        exact hnd ((is_unlinkable_iff _ hwf).mp h)
      rw [hred, hul]
      rfl
  · intro hdots
    have hul : is_unlinkable (itable inum) = true := (is_unlinkable_iff _ hwf).mpr hdots
    rw [hred, hul]
    rfl

/-- Witness: unlinking the empty directory "sub" from `c7dp` succeeds and
performs exactly the claimed updates. -/
theorem c7_dir_unlink_witness :
    dir_lookup_offset c7dp.entries [115, 117, 98] = some (9, 2) ∧
    0 < (c7itable 9).nlink ∧ WfDir (c7itable 9) ∧ OnlyDots (c7itable 9) ∧
    dir_unlink c7dp c7itable [115, 117, 98] =
      Except.ok
        ({ c7dp with
            entries := c7dp.entries.set 2 zeroDirent,
            nlink := if (c7itable 9).typ = FileType.dir then c7dp.nlink - 1 else c7dp.nlink },
          fun k => if k = 9 then { c7itable k with nlink := (c7itable k).nlink - 1 }
            else c7itable k) :=
  ⟨by decide, by decide, by decide, by decide,
    (c7_dir_unlink c7dp c7itable [115, 117, 98] 9 2 (by decide) (by decide)
      (by decide)).2 (by decide)⟩

/-- takeWhile up to the separator returns the whole separator-free
element. -/
theorem takeWhile_noslash (e r : List Nat) (he : ∀ b ∈ e, b ≠ SLASH) :
    (e ++ SLASH :: r).takeWhile (fun b => b != SLASH) = e := by
  induction e with
  | nil => simp [List.takeWhile_cons]
  | cons a e1 ih =>
      have ha : a ≠ SLASH := he a (List.mem_cons_self a e1)
      rw [List.cons_append, List.takeWhile_cons]
      simp only [ha, bne_iff_ne, ne_eq, not_false_eq_true, if_true, if_pos]
      rw [ih (fun b hb => he b (List.mem_cons_of_mem a hb))]

/-- dropWhile up to the separator drops exactly the element. -/
theorem dropWhile_noslash (e r : List Nat) (he : ∀ b ∈ e, b ≠ SLASH) :
    (e ++ SLASH :: r).dropWhile (fun b => b != SLASH) = SLASH :: r := by
  induction e with
  | nil => simp [List.dropWhile_cons]
  | cons a e1 ih =>
      have ha : a ≠ SLASH := he a (List.mem_cons_self a e1)
      rw [List.cons_append, List.dropWhile_cons]
      simp only [ha, bne_iff_ne, ne_eq, not_false_eq_true, if_true, if_pos]
      exact ih (fun b hb => he b (List.mem_cons_of_mem a hb))

/-- takeWhile over a fully separator-free list is the list itself. -/
theorem takeWhile_noslash_all (e : List Nat) (he : ∀ b ∈ e, b ≠ SLASH) :
    e.takeWhile (fun b => b != SLASH) = e := by
  induction e with
  | nil => rfl
  | cons a e1 ih =>
      have ha : a ≠ SLASH := he a (List.mem_cons_self a e1)
      rw [List.takeWhile_cons]
      simp only [ha, bne_iff_ne, ne_eq, not_false_eq_true, if_true, if_pos]
      rw [ih (fun b hb => he b (List.mem_cons_of_mem a hb))]

/-- dropWhile over a fully separator-free list drops everything. -/
theorem dropWhile_noslash_all (e : List Nat) (he : ∀ b ∈ e, b ≠ SLASH) :
    e.dropWhile (fun b => b != SLASH) = [] := by
  induction e with
  | nil => rfl
  | cons a e1 ih =>
      have ha : a ≠ SLASH := he a (List.mem_cons_self a e1)
      rw [List.dropWhile_cons]
      simp only [ha, bne_iff_ne, ne_eq, not_false_eq_true, if_true, if_pos]
      exact ih (fun b hb => he b (List.mem_cons_of_mem a hb))

/-- skip_elem on a non-empty separator-free element followed by a slash
yields the element truncated to DIRSIZ bytes and the remainder with its
leading slashes dropped. -/
theorem skip_elem_elem_slash (e r : List Nat) (hne : e ≠ []) (he : ∀ b ∈ e, b ≠ SLASH) :
    skip_elem (e ++ SLASH :: r) =
      some (e.take DIRSIZ, r.dropWhile (fun b => b == SLASH)) := by
  cases e with
  | nil => exact absurd rfl hne
  | cons a e1 =>
      have ha : a ≠ SLASH := he a (List.mem_cons_self a e1)
      unfold skip_elem
      rw [List.cons_append, List.dropWhile_cons]
      simp only [beq_iff_eq, ha, if_false, if_neg ha]
      rw [show a :: (e1 ++ SLASH :: r) = (a :: e1) ++ SLASH :: r from rfl]
      rw [takeWhile_noslash (a :: e1) r he, dropWhile_noslash (a :: e1) r he]
      rw [List.dropWhile_cons]
      simp

/-- skip_elem on a path that is a single separator-free element yields
the element truncated to DIRSIZ and an empty remainder. -/
theorem skip_elem_last (e : List Nat) (hne : e ≠ []) (he : ∀ b ∈ e, b ≠ SLASH) :
    skip_elem e = some (e.take DIRSIZ, []) := by
  cases e with
  | nil => exact absurd rfl hne
  | cons a e1 =>
      have ha : a ≠ SLASH := he a (List.mem_cons_self a e1)
      unfold skip_elem
      rw [List.dropWhile_cons]
      simp only [beq_iff_eq, ha, if_false, if_neg ha]
      rw [takeWhile_noslash_all (a :: e1) he, dropWhile_noslash_all (a :: e1) he]
      simp

/-- C10. Directory-entry names longer than DIRSIZ = 24 bytes are silently
truncated: dir_link stores exactly the first 24 bytes (zero-padded), path
element parsing (skip_elem) truncates every element to its first 24
bytes, and consequently two path elements agreeing on their first 24
bytes parse identically and resolve to the same directory entry.
(fs.rs dir_link 672-699, skip_elem 795-804.) -/
theorem c10_name_truncation :
    (∀ n1 n2 : List Nat, n1.take DIRSIZ = n2.take DIRSIZ → storedBytes n1 = storedBytes n2) ∧
    (∀ e r : List Nat, e ≠ [] → (∀ b ∈ e, b ≠ SLASH) →
      skip_elem (e ++ SLASH :: r) = some (e.take DIRSIZ, r.dropWhile (fun b => b == SLASH)) ∧
      skip_elem e = some (e.take DIRSIZ, [])) ∧
    (∀ (e1 e2 r : List Nat) (entries : List Dirent),
      e1 ≠ [] → e2 ≠ [] → (∀ b ∈ e1, b ≠ SLASH) → (∀ b ∈ e2, b ≠ SLASH) →
      e1.take DIRSIZ = e2.take DIRSIZ →
      skip_elem (e1 ++ SLASH :: r) = skip_elem (e2 ++ SLASH :: r) ∧
      dir_lookup_offset entries (e1.take DIRSIZ)
        = dir_lookup_offset entries (e2.take DIRSIZ)) := by
  refine ⟨?_, ?_, ?_⟩
  · intro n1 n2 h
    unfold storedBytes
    rw [h]
    have hlen : min DIRSIZ n1.length = min DIRSIZ n2.length := by
      have h1 := List.length_take DIRSIZ n1
      have h2 := List.length_take DIRSIZ n2
      rw [h] at h1
      omega
    rw [hlen]
  · intro e r hne he
    exact ⟨skip_elem_elem_slash e r hne he, skip_elem_last e hne he⟩
  · intro e1 e2 r entries hne1 hne2 he1 he2 h24
    constructor
    · rw [skip_elem_elem_slash e1 r hne1 he1, skip_elem_elem_slash e2 r hne2 he2, h24]
    · rw [h24]

/-- Witness: a 25-byte name and a different 25-byte name agreeing on the
first 24 bytes parse to the same element and resolve identically. -/
theorem c10_name_truncation_witness :
    (List.replicate 25 97 ≠ ([] : List Nat)) ∧
    (List.replicate 24 97 ++ [98] ≠ ([] : List Nat)) ∧
    (∀ b ∈ List.replicate 25 97, b ≠ SLASH) ∧
    (∀ b ∈ List.replicate 24 97 ++ [98], b ≠ SLASH) ∧
    (List.replicate 25 97).take DIRSIZ = (List.replicate 24 97 ++ [98]).take DIRSIZ ∧
    skip_elem (List.replicate 25 97 ++ SLASH :: [120])
      = skip_elem ((List.replicate 24 97 ++ [98]) ++ SLASH :: [120]) ∧
    dir_lookup_offset [⟨5, storedBytes (List.replicate 25 97)⟩]
        ((List.replicate 25 97).take DIRSIZ)
      = dir_lookup_offset [⟨5, storedBytes (List.replicate 25 97)⟩]
        ((List.replicate 24 97 ++ [98]).take DIRSIZ) := by
  have h := c10_name_truncation.2.2 (List.replicate 25 97) (List.replicate 24 97 ++ [98])
    [120] [⟨5, storedBytes (List.replicate 25 97)⟩]
    (by decide) (by decide) (by decide) (by decide) (by decide)
  exact ⟨by decide, by decide, by decide, by decide, by decide, h.1, h.2⟩

end Fs

end XvSix

namespace XvSix

namespace Proc

/-- Closed form of the counter: `(1 + k) % 2^32`. -/
theorem counterAfter_closed (k : Nat) : counterAfter k = (1 + k) % U32 := by
  induction k with
  | zero =>
      show 1 = (1 + 0) % U32
      decide
  | succ k ih =>
      show (counterAfter k + 1) % U32 = (1 + (k + 1)) % U32
      rw [ih]
      conv_rhs => rw [show 1 + (k + 1) = (1 + k) + 1 by omega]
      rw [Nat.add_mod (1 + k) 1]
      have h1 : 1 % U32 = 1 := by decide
      rw [h1]

/-- Generalized pid-trace lemma: from any state whose counter sits at
allocation index n, the pids assigned are consecutive values of pidOf. -/
theorem prun_pids (es : List PEvent) (n : Nat) (s : PTState)
    (hc : s.ctr = counterAfter n) :
    ∃ m, (prun s es).2 = (List.range' n m).map pidOf ∧
      (prun s es).1.ctr = counterAfter (n + m) := by
  induction es generalizing n s with
  | nil =>
      refine ⟨0, ?_, ?_⟩
      · rfl
      · simpa using hc
  | cons e es ih =>
      cases e with
      | alloc =>
          show ∃ m, (prun s (PEvent.alloc :: es)).2 = _ ∧ _
          unfold prun pstep
          cases hidx : s.slots.findIdx? (fun o => o.isNone) with
          | some i =>
              simp only [hidx]
              have hctr1 : (PTState.mk (next_pid s.ctr).2
                  (s.slots.set i (some (next_pid s.ctr).1))).ctr = counterAfter (n + 1) := by
                show (s.ctr + 1) % U32 = counterAfter (n + 1)
                rw [hc]
                rfl
              obtain ⟨m, hm1, hm2⟩ := ih (n + 1) _ hctr1
              refine ⟨m + 1, ?_, ?_⟩
              · rw [hm1]
                rw [List.range'_succ n m 1]
                simp only [List.map_cons, Option.toList_some, List.cons_append,
                  List.nil_append]
                have hh : (next_pid s.ctr).1 = pidOf n := by
                  show s.ctr = pidOf n
                  rw [hc]
                  rfl
                rw [hh]
              · rw [hm2]
                congr 1
                omega
          | none =>
              simp only [hidx]
              obtain ⟨m, hm1, hm2⟩ := ih n s hc
              exact ⟨m, by simpa using hm1, by simpa using hm2⟩
      | reap i =>
          unfold prun pstep
          have hctr1 : (PTState.mk s.ctr (s.slots.set i none)).ctr
              = counterAfter n := hc
          obtain ⟨m, hm1, hm2⟩ := ih n _ hctr1
          exact ⟨m, by simpa using hm1, by simpa using hm2⟩

/-- C9 counterexample: pid allocation wraps at the u32 boundary — the
allocation at index 2^32 - 1 receives pid 0, which is not greater than
the very first pid 1, and the allocation at index 2^32 reuses pid 1. -/
theorem c9_pid_monotone_counterexample :
    pidOf 0 = 1 ∧ pidOf (U32 - 1) = 0 ∧ ¬(pidOf 0 < pidOf (U32 - 1)) ∧
    pidOf U32 = pidOf 0 := by
  have h1 : pidOf (U32 - 1) = 0 := by
    show counterAfter (U32 - 1) = 0
    rw [counterAfter_closed]
    decide
  have h2 : pidOf U32 = 1 := by
    show counterAfter U32 = 1
    rw [counterAfter_closed]
    decide
  refine ⟨rfl, h1, ?_, by rw [h2]; rfl⟩
  rw [h1]
  show ¬(pidOf 0 < 0)
  omega

/-- C9 amended. Process identifiers come from the single wrapping u32
counter starting at 1: the pids assigned by any sequence of allocations
and wait-reclaims are consecutive values of `pidOf` (so reclaiming slots
never affects pid assignment and init receives pid 1), and pids strictly
increase — hence are never reused — as long as fewer than 2^32
allocations have happened. -/
theorem c9_pid_monotone_amended :
    pidOf 0 = 1 ∧
    (∀ es : List PEvent, pidsOf es = (List.range' 0 (pidsOf es).length).map pidOf) ∧
    (∀ j k : Nat, j < k → k < U32 - 1 → pidOf j < pidOf k) := by
  refine ⟨rfl, ?_, ?_⟩
  · intro es
    obtain ⟨m, hm1, _⟩ := prun_pids es 0 pinit rfl
    show (prun pinit es).2 = (List.range' 0 (prun pinit es).2.length).map pidOf
    rw [hm1]
    simp [List.length_map, List.length_range']
  · intro j k hjk hk
    have hj : pidOf j = 1 + j := by
      rw [show pidOf j = counterAfter j from rfl, counterAfter_closed]
      have : 1 + j < U32 := by
        unfold U32 at hk ⊢
        omega
      exact Nat.mod_eq_of_lt this
    have hkv : pidOf k = 1 + k := by
      rw [show pidOf k = counterAfter k from rfl, counterAfter_closed]
      have : 1 + k < U32 := by
        unfold U32 at hk ⊢
        omega
      exact Nat.mod_eq_of_lt this
    omega

/-- Witness: over the event trace alloc, reap, alloc the assigned pids
are 1 and 2 — consecutive pidOf values — and pid 1 < pid 2. -/
theorem c9_pid_monotone_witness :
    pidsOf [PEvent.alloc, PEvent.reap 0, PEvent.alloc]
        = (List.range' 0 (pidsOf [PEvent.alloc, PEvent.reap 0, PEvent.alloc]).length).map pidOf ∧
    (0 : Nat) < 1 ∧ (1 : Nat) < U32 - 1 ∧ pidOf 0 < pidOf 1 :=
  ⟨c9_pid_monotone_amended.2.1 [PEvent.alloc, PEvent.reap 0, PEvent.alloc],
    by decide, by decide,
    c9_pid_monotone_amended.2.2 0 1 (by decide) (by decide)⟩

end Proc

end XvSix

namespace XvSix

namespace Vm

/-- C6. alloc_user leaks the freshly allocated leaf page when map_to
fails: with one free page, alloc_user(pt, 0, 4096, WRITE) pops the page
for the leaf, then map_to fails allocating the level-3 table; the error
path runs dealloc_user, yet afterwards the free list is empty and no
mapping exists — the popped page 0x5000 is neither back in the allocator
nor mapped, contradicting the claim that every page allocated during the
call is released.  (vm.rs alloc_user 362-387.) -/
theorem c6_alloc_user_leak :
    (alloc_user c6m0 c6root 0 4096 WRITE).2 = Except.error VmErr.allocFailed ∧
    (alloc_user c6m0 c6root 0 4096 WRITE).1.free = [] ∧
    ¬(0x5000 ∈ (alloc_user c6m0 c6root 0 4096 WRITE).1.free) ∧
    translate (alloc_user c6m0 c6root 0 4096 WRITE).1 c6root 0 = none := by
  refine ⟨by decide, by decide, by decide, by decide⟩

/-- C2. dealloc_user fails to unmap a range that crosses a 2 MiB boundary
from an unaligned start, and frees pages outside the range instead: after
the two successful alloc_user calls map [0, 0x2000) and
[0x1FE000, 0x202000), dealloc_user(pt, 0x202000, 0x1FE000) reports
success, yet 0x200000 and 0x201000 (inside the range) remain mapped with
their backing pages (0x28000, 0x2A000) never returned to the allocator,
while 0 and 0x1000 (outside the range) have been unmapped.  The cause is
`lstart = start & (2 * MIB - 1)` in Table<Level2>::free_user_pages
(vm.rs:203) — the remainder of `start` instead of its aligned
round-down — which sends the chunk into the wrong level-1 table.
(vm.rs free_user_pages 397-419, 197-221.) -/
theorem c2_dealloc_wrong_range :
    c2s1.2 = Except.ok 0x2000 ∧
    c2s2.2 = Except.ok 0x202000 ∧
    c2s3.2 = Except.ok 0x1FE000 ∧
    translate c2s2.1 c2root 0 = some 0x21000 ∧
    translate c2s2.1 c2root 0x200000 = some 0x28000 ∧
    translate c2s3.1 c2root 0x200000 = some 0x28000 ∧
    translate c2s3.1 c2root 0x201000 = some 0x2A000 ∧
    ¬(0x28000 ∈ c2s3.1.free) ∧
    ¬(0x2A000 ∈ c2s3.1.free) ∧
    translate c2s3.1 c2root 0 = none ∧
    translate c2s3.1 c2root 0x1000 = none ∧
    translate c2s3.1 c2root 0x1FE000 = none ∧
    translate c2s3.1 c2root 0x1FF000 = none := by
  refine ⟨by decide, by decide, by decide, by decide, by decide, by decide, by decide,
    by decide, by decide, by decide, by decide, by decide, by decide⟩

end Vm

end XvSix

